import Mathlib

/-!
Verification of the scrolling-text composition engine (`PreviewPlayer`):
text layout / word wrap, speed and duration resolution, ticker geometry,
export tick loop, audio-graph muting and playback error handling.

Numeric quantities (pixel widths, seconds, gain values) are modelled as `ℚ`.
A font is modelled as its measurement function `widthFn : String → ℚ`
(`ctx.measureText(part).width` in the source, measured with the configured
font, size and weight).
-/

namespace LoveStory

/-- A measured text segment: one token (a word or a whitespace run) together
with its measured pixel width. -/
structure Segment where
  text : String
  width : ℚ
  deriving DecidableEq

/-- One wrapped line: its ordered segments plus the accumulated total width.
An empty source line is represented as the explicit zero-width line `⟨[], 0⟩`. -/
structure Line where
  segments : List Segment
  width : ℚ
  deriving DecidableEq

/-- `script.replace(/\*+/g, '')`: strip markdown bold markers, i.e. remove
every asterisk from the script. -/
def sanitize (s : String) : String :=
  String.mk (s.toList.filter (fun c => c ≠ '*'))

/-- `sanitizedScript.split('\n')`: split into hard lines on explicit newlines.
The accumulator collects the current line's characters in reverse. -/
def splitLinesAux : List Char → List Char → List String
  | [], acc => [String.mk acc.reverse]
  | c :: cs, acc =>
    if c = '\n' then String.mk acc.reverse :: splitLinesAux cs []
    else splitLinesAux cs (c :: acc)

def splitLines (s : String) : List String := splitLinesAux s.toList []

/-- `line.split(/(\s+)/)` keeping the separators: split a hard line into
maximal runs of whitespace / non-whitespace characters.  The empty boundary
strings that the JS split produces are dropped here, mirroring the
`if (part === '') return;` filter at the call site. -/
def splitRunsAux : List Char → List Char → List String
  | [], [] => []
  | [], a :: rest => [String.mk ((a :: rest).reverse)]
  | c :: cs, [] => splitRunsAux cs [c]
  | c :: cs, a :: rest =>
    if a.isWhitespace = c.isWhitespace then splitRunsAux cs (c :: a :: rest)
    else String.mk ((a :: rest).reverse) :: splitRunsAux cs [c]

def splitRuns (s : String) : List String := splitRunsAux s.toList []

/-- `seg.text.trim().length > 0` in the source: trimming whitespace from both
ends leaves a non-empty string exactly when the token contains at least one
non-whitespace character, which is how we state it (structural recursion,
where `String.trim` itself is well-founded and does not reduce). -/
def hasContent (s : String) : Bool := s.toList.any (fun c => !c.isWhitespace)

/-- The greedy wrap loop over one hard line's measured segments
(source `lineSegments.forEach`): `cur`/`cw` mirror the mutable
`currentLine`/`currentWidth`; a line break is forced before a segment that
would overflow `maxWidth` and whose text has non-whitespace content; the
trailing `cur` is emitted if non-empty. -/
def wrapSegs (maxWidth : ℚ) : List Segment → List Segment → ℚ → List Line
  | [], cur, cw => if cur = [] then [] else [⟨cur, cw⟩]
  | seg :: rest, cur, cw =>
    if seg.text = "\n" then wrapSegs maxWidth rest cur cw
    else if maxWidth < cw + seg.width ∧ hasContent seg.text = true then
      ⟨cur, cw⟩ :: wrapSegs maxWidth rest [seg] seg.width
    else wrapSegs maxWidth rest (cur ++ [seg]) (cw + seg.width)

/-- Layout of one hard line (one element of `rawLines.forEach`): an empty
hard line emits the explicit zero-segment line, a non-empty one is tokenized
preserving whitespace runs, measured, and greedily wrapped. -/
def layoutHardLine (widthFn : String → ℚ) (maxWidth : ℚ) (line : String) : List Line :=
  if line = "" then [⟨[], 0⟩]
  else
    let parts := (splitRuns line).filter (fun p => p ≠ "")
    let lineSegments := parts.map (fun p => ⟨p, widthFn p⟩)
    wrapSegs maxWidth lineSegments [] 0

/-- The text layout engine (the `lines` useMemo): sanitize the script, split
it into hard lines, lay each hard line out, and concatenate the results into
the final line list. -/
def layout (widthFn : String → ℚ) (script : String) (maxWidth : ℚ) : List Line :=
  ((splitLines (sanitize script)).map (layoutHardLine widthFn maxWidth)).flatten

/-- Total width of a list of segments. -/
def sumWidths (l : List Segment) : ℚ := (l.map Segment.width).sum

/-- The whitespace test the wrap loop applies to a segment
(`seg.text.trim().length > 0`, negated). -/
def isWsSeg (seg : Segment) : Bool := !hasContent seg.text

/-- The segments of a line up to and including its last segment with
non-whitespace content (trailing whitespace runs removed). -/
def coreSegments (l : List Segment) : List Segment :=
  (l.reverse.dropWhile isWsSeg).reverse

/-- A monospace-style measurement function: one pixel per character. -/
def lenWidth (s : String) : ℚ := (s.length : ℚ)

lemma sumWidths_nil : sumWidths [] = 0 := rfl

lemma sumWidths_append_single (xs : List Segment) (s : Segment) :
    sumWidths (xs ++ [s]) = sumWidths xs + s.width := by
  simp [sumWidths]

lemma coreSegments_nil : coreSegments [] = [] := rfl

lemma coreSegments_append (xs : List Segment) (s : Segment) :
    coreSegments (xs ++ [s]) = if isWsSeg s then coreSegments xs else xs ++ [s] := by
  simp only [coreSegments, List.reverse_append, List.reverse_cons, List.reverse_nil,
    List.nil_append, List.singleton_append, List.dropWhile_cons]
  by_cases h : isWsSeg s
  · simp [h]
  · simp [h]

/-- The invariant of the greedy wrap loop: every emitted line whose trailing
whitespace has been removed and which still holds at least two segments fits
within `maxWidth`. -/
lemma wrapSegs_core_bound (maxW : ℚ) (segs : List Segment) :
    ∀ (cur : List Segment) (cw : ℚ),
      cw = sumWidths cur →
      (2 ≤ (coreSegments cur).length → sumWidths (coreSegments cur) ≤ maxW) →
      ∀ l ∈ wrapSegs maxW segs cur cw,
        2 ≤ (coreSegments l.segments).length → sumWidths (coreSegments l.segments) ≤ maxW := by
  induction segs with
  | nil =>
      intro cur cw hcw hP l hl
      simp only [wrapSegs] at hl
      split at hl
      · simp at hl
      · rcases List.mem_singleton.mp hl with rfl
        exact hP
  | cons seg rest ih =>
      intro cur cw hcw hP l hl
      simp only [wrapSegs] at hl
      by_cases hnl : seg.text = "\n"
      · rw [if_pos hnl] at hl
        exact ih cur cw hcw hP l hl
      · rw [if_neg hnl] at hl
        by_cases hbr : maxW < cw + seg.width ∧ hasContent seg.text = true
        · rw [if_pos hbr] at hl
          rcases List.mem_cons.mp hl with rfl | hl'
          · exact hP
          · refine ih [seg] seg.width (by simp [sumWidths]) ?_ l hl'
            intro h2
            have hws : isWsSeg seg = false := by
              simp [isWsSeg, hbr.2]
            have hcore : coreSegments [seg] = [seg] := by
              have := coreSegments_append [] seg
              simpa [hws, coreSegments_nil] using this
            rw [hcore] at h2
            simp at h2
        · rw [if_neg hbr] at hl
          refine ih (cur ++ [seg]) (cw + seg.width)
            (by rw [sumWidths_append_single, hcw]) ?_ l hl
          by_cases hws : isWsSeg seg
          · rw [coreSegments_append, if_pos hws]
            exact hP
          · rw [coreSegments_append, if_neg hws]
            intro _
            have hcontent : hasContent seg.text = true := by
              simpa [isWsSeg] using hws
            have hfit : ¬ maxW < cw + seg.width := fun hlt => hbr ⟨hlt, hcontent⟩
            rw [sumWidths_append_single, ← hcw]
            exact le_of_not_lt hfit

lemma layoutHardLine_core_bound (widthFn : String → ℚ) (maxW : ℚ) (line : String) :
    ∀ l ∈ layoutHardLine widthFn maxW line,
      2 ≤ (coreSegments l.segments).length → sumWidths (coreSegments l.segments) ≤ maxW := by
  intro l hl
  unfold layoutHardLine at hl
  split at hl
  · rcases List.mem_singleton.mp hl with rfl
    intro h2
    simp [coreSegments_nil] at h2
  · exact wrapSegs_core_bound maxW _ [] 0 (by simp [sumWidths])
      (by intro h2; simp [coreSegments_nil] at h2) l hl

/-- C1 (amended): every wrapped line fits within `maxWidth` once its trailing
whitespace segments are discounted, except when its non-whitespace content is
a single leading token (which may alone exceed `maxWidth`): formally, any line
whose whitespace-trimmed segment list still has at least two segments has
whitespace-trimmed total width at most `maxWidth`.  (The claim as frozen,
with the full segment width and a single-token exception, is refuted by
`layout_width_claim_counterexample`: a trailing whitespace run is appended to
a full line without a break, pushing the recorded width beyond `maxWidth`.) -/
theorem layout_core_width_le (widthFn : String → ℚ) (script : String) (maxW : ℚ)
    (l : Line) (hl : l ∈ layout widthFn script maxW)
    (h2 : 2 ≤ (coreSegments l.segments).length) :
    sumWidths (coreSegments l.segments) ≤ maxW := by
  unfold layout at hl
  rcases List.mem_flatten.mp hl with ⟨ls, hls, hmem⟩
  rcases List.mem_map.mp hls with ⟨line, _, rfl⟩
  exact layoutHardLine_core_bound widthFn maxW line l hmem h2

unseal Rat.add in
/-- C1 (counterexample to the claim as stated): with a monospace font of
1px-wide glyphs and `maxWidth = 10`, the script `"abcdefghij x"` wraps into a
first line `["abcdefghij", " "]` of total segment width 11 > 10 that has two
segments, not one: the whitespace run is appended without a break even though
it overflows. -/
theorem layout_width_claim_counterexample :
    (⟨[⟨"abcdefghij", 10⟩, ⟨" ", 1⟩], 11⟩ : Line) ∈ layout lenWidth "abcdefghij x" 10 ∧
    ¬ sumWidths [⟨"abcdefghij", 10⟩, ⟨" ", 1⟩] ≤ 10 ∧
    ([(⟨"abcdefghij", 10⟩ : Segment), ⟨" ", 1⟩].length = 1 → False) :=
  ⟨by decide, by decide, by decide⟩

unseal Rat.add in
/-- C1 witness: a concrete application of `layout_core_width_le`: the single
line produced for `"ab cd"` at `maxWidth = 10` has three core segments and
core width 5 ≤ 10. -/
theorem layout_core_width_le_witness :
    sumWidths (coreSegments (⟨[⟨"ab", 2⟩, ⟨" ", 1⟩, ⟨"cd", 2⟩], 5⟩ : Line).segments) ≤ 10 :=
  layout_core_width_le lenWidth "ab cd" 10 ⟨[⟨"ab", 2⟩, ⟨" ", 1⟩, ⟨"cd", 2⟩], 5⟩
    (by decide) (by decide)

lemma toList_mk (l : List Char) : (String.mk l).toList = l := rfl

lemma mk_ne_empty {l : List Char} (h : l ≠ []) : String.mk l ≠ "" := by
  intro he
  apply h
  have h2 : (String.mk l).toList = ("" : String).toList := by rw [he]
  exact h2

lemma eq_empty_of_toList_nil (s : String) (h : s.toList = []) : s = "" := by
  cases s with
  | mk data =>
      cases h
      rfl

lemma splitLinesAux_ne_nil (cs acc : List Char) : splitLinesAux cs acc ≠ [] := by
  induction cs generalizing acc with
  | nil => simp [splitLinesAux]
  | cons c cs ih =>
      simp only [splitLinesAux]
      split
      · simp
      · exact ih _

/-- Every hard line produced by the newline splitter is free of newline
characters. -/
lemma splitLinesAux_no_newline (cs : List Char) :
    ∀ acc : List Char, '\n' ∉ acc → ∀ s ∈ splitLinesAux cs acc, '\n' ∉ s.toList := by
  induction cs with
  | nil =>
      intro acc hacc s hs
      simp only [splitLinesAux, List.mem_singleton] at hs
      subst hs
      rw [toList_mk]
      intro h
      exact hacc (List.mem_reverse.mp h)
  | cons c cs ih =>
      intro acc hacc s hs
      simp only [splitLinesAux] at hs
      by_cases hc : c = '\n'
      · rw [if_pos hc] at hs
        rcases List.mem_cons.mp hs with rfl | hs'
        · rw [toList_mk]
          intro h
          exact hacc (List.mem_reverse.mp h)
        · exact ih [] (by simp) s hs'
      · rw [if_neg hc] at hs
        refine ih (c :: acc) ?_ s hs
        intro h
        rcases List.mem_cons.mp h with h | h
        · exact hc h.symm
        · exact hacc h

lemma splitRunsAux_ne_nil (cs : List Char) :
    ∀ acc : List Char, cs ≠ [] ∨ acc ≠ [] → splitRunsAux cs acc ≠ [] := by
  induction cs with
  | nil =>
      intro acc h
      rcases h with h | h
      · exact absurd rfl h
      · cases acc with
        | nil => exact absurd rfl h
        | cons a rest => simp [splitRunsAux]
  | cons c cs ih =>
      intro acc h
      cases acc with
      | nil => exact ih [c] (Or.inr (by simp))
      | cons a rest =>
          simp only [splitRunsAux]
          split
          · exact ih _ (Or.inr (by simp))
          · simp

lemma splitRunsAux_ne_empty (cs : List Char) :
    ∀ acc : List Char, ∀ p ∈ splitRunsAux cs acc, p ≠ "" := by
  induction cs with
  | nil =>
      intro acc p hp
      cases acc with
      | nil => simp [splitRunsAux] at hp
      | cons a rest =>
          simp only [splitRunsAux, List.mem_singleton] at hp
          subst hp
          exact mk_ne_empty (by simp)
  | cons c cs ih =>
      intro acc p hp
      cases acc with
      | nil => exact ih [c] p hp
      | cons a rest =>
          simp only [splitRunsAux] at hp
          split at hp
          · exact ih _ p hp
          · rcases List.mem_cons.mp hp with rfl | hp'
            · exact mk_ne_empty (by simp)
            · exact ih [c] p hp'

/-- Every character of every run produced by the run splitter comes from the
input characters or the accumulator. -/
lemma splitRunsAux_chars (cs : List Char) :
    ∀ acc : List Char, ∀ p ∈ splitRunsAux cs acc, ∀ ch ∈ p.toList, ch ∈ cs ∨ ch ∈ acc := by
  induction cs with
  | nil =>
      intro acc p hp ch hch
      cases acc with
      | nil => simp [splitRunsAux] at hp
      | cons a rest =>
          simp only [splitRunsAux, List.mem_singleton] at hp
          subst hp
          rw [toList_mk] at hch
          exact Or.inr (List.mem_reverse.mp hch)
  | cons c cs ih =>
      intro acc p hp ch hch
      cases acc with
      | nil =>
          rcases ih [c] p hp ch hch with h | h
          · exact Or.inl (List.mem_cons_of_mem _ h)
          · rcases List.mem_singleton.mp h with rfl
            exact Or.inl (List.mem_cons_self _ _)
      | cons a rest =>
          simp only [splitRunsAux] at hp
          split at hp
          · rcases ih _ p hp ch hch with h | h
            · exact Or.inl (List.mem_cons_of_mem _ h)
            · rcases List.mem_cons.mp h with rfl | h
              · exact Or.inl (List.mem_cons_self _ _)
              · exact Or.inr h
          · rcases List.mem_cons.mp hp with rfl | hp'
            · rw [toList_mk] at hch
              exact Or.inr (List.mem_reverse.mp hch)
            · rcases ih [c] p hp' ch hch with h | h
              · exact Or.inl (List.mem_cons_of_mem _ h)
              · rcases List.mem_singleton.mp h with rfl
                exact Or.inl (List.mem_cons_self _ _)

/-- The wrap loop emits at least one line as soon as the pending line is
non-empty or some remaining segment is not skipped. -/
lemma wrapSegs_ne_nil (maxW : ℚ) (segs : List Segment) :
    ∀ (cur : List Segment) (cw : ℚ),
      cur ≠ [] ∨ (∃ seg ∈ segs, seg.text ≠ "\n") →
      wrapSegs maxW segs cur cw ≠ [] := by
  induction segs with
  | nil =>
      intro cur cw h
      rcases h with h | ⟨seg, hseg, _⟩
      · simp [wrapSegs, h]
      · simp at hseg
  | cons seg rest ih =>
      intro cur cw h
      simp only [wrapSegs]
      by_cases hnl : seg.text = "\n"
      · rw [if_pos hnl]
        apply ih
        rcases h with h | ⟨s, hs, hsne⟩
        · exact Or.inl h
        · rcases List.mem_cons.mp hs with rfl | hs'
          · exact absurd hnl hsne
          · exact Or.inr ⟨s, hs', hsne⟩
      · rw [if_neg hnl]
        split
        · simp
        · apply ih
          exact Or.inl (by simp)

lemma layoutHardLine_ne_nil (widthFn : String → ℚ) (maxW : ℚ) (line : String)
    (h : '\n' ∉ line.toList) : layoutHardLine widthFn maxW line ≠ [] := by
  unfold layoutHardLine
  split
  · simp
  · rename_i hne
    have hlist : line.toList ≠ [] := by
      intro h0
      exact hne (eq_empty_of_toList_nil line h0)
    have hruns : splitRuns line ≠ [] := splitRunsAux_ne_nil _ [] (Or.inl hlist)
    obtain ⟨p, hp⟩ := List.exists_mem_of_ne_nil _ hruns
    have hpne : p ≠ "" := splitRunsAux_ne_empty _ [] p hp
    have hpmem : p ∈ (splitRuns line).filter (fun q => q ≠ "") :=
      List.mem_filter.mpr ⟨hp, by simpa using hpne⟩
    apply wrapSegs_ne_nil
    refine Or.inr ⟨⟨p, widthFn p⟩, List.mem_map_of_mem _ hpmem, ?_⟩
    intro hpeq
    have hp2 : p = "\n" := hpeq
    have hnl : '\n' ∈ p.toList := by
      rw [hp2]
      decide
    rcases splitRunsAux_chars _ [] p hp '\n' hnl with hmem | hmem
    · exact h hmem
    · simp at hmem

lemma layout_ne_nil (widthFn : String → ℚ) (script : String) (maxW : ℚ) :
    layout widthFn script maxW ≠ [] := by
  unfold layout
  have h0 : splitLines (sanitize script) ≠ [] := splitLinesAux_ne_nil _ _
  obtain ⟨r, rs, hr⟩ := List.exists_cons_of_ne_nil h0
  have hmem : r ∈ splitLines (sanitize script) := by
    rw [hr]
    exact List.mem_cons_self _ _
  have hnn : '\n' ∉ r.toList := splitLinesAux_no_newline _ [] (by simp) r hmem
  rw [hr]
  simp only [List.map_cons, List.flatten_cons]
  intro hcontra
  rcases List.append_eq_nil.mp hcontra with ⟨h1, _⟩
  exact layoutHardLine_ne_nil widthFn maxW r hnn h1

/-- The source definition `totalTextHeight = lines.length * (fontSize * lineHeight)`. -/
def totalTextHeight (widthFn : String → ℚ) (script : String)
    (maxW fontSize lineHeight : ℚ) : ℚ :=
  ((layout widthFn script maxW).length : ℚ) * (fontSize * lineHeight)

/-- C9: the empty script lays out as exactly one zero-segment, zero-width
line; every script produces at least one line; and consequently
`totalTextHeight` is at least one line height `fontSize * lineHeight`
(for a nonnegative line height), never zero lines. -/
theorem layout_nonempty_spec (widthFn : String → ℚ) (maxW : ℚ) :
    layout widthFn "" maxW = [⟨[], 0⟩] ∧
    (∀ script : String, 1 ≤ (layout widthFn script maxW).length) ∧
    (∀ (script : String) (fontSize lineHeight : ℚ), 0 ≤ fontSize * lineHeight →
      fontSize * lineHeight ≤ totalTextHeight widthFn script maxW fontSize lineHeight) := by
  refine ⟨rfl, fun script => ?_, fun script fontSize lineHeight hnn => ?_⟩
  · exact Nat.succ_le_of_lt (List.length_pos.mpr (layout_ne_nil widthFn script maxW))
  · unfold totalTextHeight
    have h1 : (1 : ℚ) ≤ ((layout widthFn script maxW).length : ℚ) := by
      exact_mod_cast Nat.succ_le_of_lt (List.length_pos.mpr (layout_ne_nil widthFn script maxW))
    calc fontSize * lineHeight = 1 * (fontSize * lineHeight) := by ring
    _ ≤ ((layout widthFn script maxW).length : ℚ) * (fontSize * lineHeight) :=
        mul_le_mul_of_nonneg_right h1 hnn

/-- C9 witness: with the monospace measure, script `"Hello"` and a 40px font
at 1.5 line height, the total text height is at least 60. -/
theorem layout_nonempty_spec_witness :
    (40 : ℚ) * (3 / 2) ≤ totalTextHeight lenWidth "Hello" 1728 40 (3 / 2) :=
  (layout_nonempty_spec lenWidth 1728).2.2 "Hello" 40 (3 / 2) (by norm_num)

/-- The four aspect-ratio presets of `getCanvasDimensions`. -/
inductive AspectPreset where
  | r16x9
  | r9x16
  | r1x1
  | r4x5
  deriving DecidableEq

/-- The configuration fields of `VideoConfig` that the player's timing and
audio behaviour reads.  Media references (`audioUrl`) are modelled by their
truthiness: whether a primary track is loaded. -/
structure VideoConfig where
  aspectPreset : AspectPreset
  script : String
  fontSize : ℚ
  lineHeight : ℚ
  isBold : Bool
  scrollSpeed : ℚ
  autoScrollSpeed : Bool
  audioUrl : Bool
  mainAudioVolume : ℚ
  bgMusicVolume : ℚ
  muteOnExport : Bool
  fps : ℚ
  tickerSpeed : ℚ
  deriving DecidableEq

/-- `getCanvasDimensions().w`. -/
def canvasWidth (c : VideoConfig) : ℚ :=
  match c.aspectPreset with
  | .r9x16 => 1080
  | .r1x1 => 1080
  | .r4x5 => 1080
  | .r16x9 => 1920

/-- `getCanvasDimensions().h`. -/
def canvasHeight (c : VideoConfig) : ℚ :=
  match c.aspectPreset with
  | .r9x16 => 1920
  | .r1x1 => 1080
  | .r4x5 => 1350
  | .r16x9 => 1080

/-- `PADDING_X = CANVAS_WIDTH * 0.05`. -/
def paddingX (c : VideoConfig) : ℚ := canvasWidth c * (5 / 100)

/-- `maxWidth = CANVAS_WIDTH - (PADDING_X * 2)`. -/
def maxWidthOf (c : VideoConfig) : ℚ := canvasWidth c - paddingX c * 2

/-- The layout applied to the configuration's script at its wrap width. -/
def linesOf (widthFn : String → ℚ) (c : VideoConfig) : List Line :=
  layout widthFn c.script (maxWidthOf c)

/-- `totalTextHeight = lines.length * (config.fontSize * config.lineHeight)`. -/
def totalTextHeightOf (widthFn : String → ℚ) (c : VideoConfig) : ℚ :=
  ((linesOf widthFn c).length : ℚ) * (c.fontSize * c.lineHeight)

/-- `totalDistance = totalTextHeight + CANVAS_HEIGHT`. -/
def totalDistanceOf (widthFn : String → ℚ) (c : VideoConfig) : ℚ :=
  totalTextHeightOf widthFn c + canvasHeight c

/-- The `calculatedAutoSpeed` useMemo: with auto-speed requested and a known
positive audio duration, `max(totalDistance / audioDuration, 10)`; otherwise
the configured scroll speed. -/
def calculatedAutoSpeed (widthFn : String → ℚ) (c : VideoConfig) (audioDuration : ℚ) : ℚ :=
  if c.autoScrollSpeed = true ∧ 0 < audioDuration then
    max (totalDistanceOf widthFn c / audioDuration) 10
  else c.scrollSpeed

/-- `effectiveScrollSpeed = config.autoScrollSpeed ? calculatedAutoSpeed :
config.scrollSpeed`. -/
def effectiveScrollSpeed (widthFn : String → ℚ) (c : VideoConfig) (audioDuration : ℚ) : ℚ :=
  if c.autoScrollSpeed = true then calculatedAutoSpeed widthFn c audioDuration
  else c.scrollSpeed

/-- The divisor `effectiveScrollSpeed || 50` of `visualDuration`: JS `||`
replaces a zero (falsy) speed by the fallback 50. -/
def scrollDivisor (widthFn : String → ℚ) (c : VideoConfig) (audioDuration : ℚ) : ℚ :=
  if effectiveScrollSpeed widthFn c audioDuration = 0 then 50
  else effectiveScrollSpeed widthFn c audioDuration

/-- `visualDuration = totalDistance / (effectiveScrollSpeed || 50)`. -/
def visualDuration (widthFn : String → ℚ) (c : VideoConfig) (audioDuration : ℚ) : ℚ :=
  totalDistanceOf widthFn c / scrollDivisor widthFn c audioDuration

/-- `maxDuration = config.audioUrl && audioDuration > 0 ? audioDuration :
visualDuration`. -/
def maxDuration (widthFn : String → ℚ) (c : VideoConfig) (audioDuration : ℚ) : ℚ :=
  if c.audioUrl = true ∧ 0 < audioDuration then audioDuration
  else visualDuration widthFn c audioDuration

/-- C2: with a loaded primary track of known positive duration, `maxDuration`
is that duration, whatever the scroll-speed configuration. -/
theorem maxDuration_eq_audioDuration (widthFn : String → ℚ) (c : VideoConfig)
    (audioDuration : ℚ) (hA : c.audioUrl = true) (hd : 0 < audioDuration) :
    maxDuration widthFn c audioDuration = audioDuration := by
  simp [maxDuration, hA, hd]

/-- A sample configuration with a loaded primary audio track. -/
def sampleConfig : VideoConfig :=
  { aspectPreset := .r16x9, script := "Hello", fontSize := 40, lineHeight := 3 / 2,
    isBold := false, scrollSpeed := 50, autoScrollSpeed := false, audioUrl := true,
    mainAudioVolume := 1, bgMusicVolume := 1 / 2, muteOnExport := true, fps := 30,
    tickerSpeed := 120 }

/-- C2 witness: for the sample configuration with a 10s primary track,
`maxDuration = 10`. -/
theorem maxDuration_eq_audioDuration_witness :
    maxDuration lenWidth sampleConfig 10 = 10 :=
  maxDuration_eq_audioDuration lenWidth sampleConfig 10 rfl (by norm_num)

/-- C6: with auto-speed enabled and a known positive audio duration the
effective scroll speed is `max((totalTextHeight + viewportHeight) /
audioDuration, 10)`, hence never below the 10 px/s floor; in every other
case the explicit configured speed is used. -/
theorem effectiveScrollSpeed_spec (widthFn : String → ℚ) (c : VideoConfig)
    (audioDuration : ℚ) :
    (c.autoScrollSpeed = true → 0 < audioDuration →
      effectiveScrollSpeed widthFn c audioDuration =
          max ((totalTextHeightOf widthFn c + canvasHeight c) / audioDuration) 10 ∧
        10 ≤ effectiveScrollSpeed widthFn c audioDuration) ∧
    (¬(c.autoScrollSpeed = true ∧ 0 < audioDuration) →
      effectiveScrollSpeed widthFn c audioDuration = c.scrollSpeed) := by
  constructor
  · intro ha hd
    have heq : effectiveScrollSpeed widthFn c audioDuration =
        max (totalDistanceOf widthFn c / audioDuration) 10 := by
      simp [effectiveScrollSpeed, calculatedAutoSpeed, ha, hd]
    rw [totalDistanceOf] at heq
    exact ⟨heq, heq ▸ le_max_right _ _⟩
  · intro h
    by_cases ha : c.autoScrollSpeed = true
    · have hd : ¬ 0 < audioDuration := fun hd => h ⟨ha, hd⟩
      simp [effectiveScrollSpeed, calculatedAutoSpeed, ha, hd]
    · simp [effectiveScrollSpeed, ha]

/-- The sample configuration with auto-speed enabled. -/
def autoSpeedConfig : VideoConfig := { sampleConfig with autoScrollSpeed := true }

/-- C6 witness: auto speed with a 10s track stays at or above the floor. -/
theorem effectiveScrollSpeed_spec_witness :
    10 ≤ effectiveScrollSpeed lenWidth autoSpeedConfig 10 :=
  ((effectiveScrollSpeed_spec lenWidth autoSpeedConfig 10).1 rfl (by norm_num)).2

/-- A configuration without primary audio whose configured scroll speed is 0
(so the effective speed is 0 and the `|| 50` fallback divisor engages). -/
def zeroSpeedConfig : VideoConfig :=
  { aspectPreset := .r16x9, script := "", fontSize := 40, lineHeight := 3 / 2,
    isBold := false, scrollSpeed := 0, autoScrollSpeed := false, audioUrl := false,
    mainAudioVolume := 1, bgMusicVolume := 1 / 2, muteOnExport := false, fps := 30,
    tickerSpeed := 120 }

unseal Rat.add Rat.mul Rat.inv in
/-- C5 (counterexample to the claim as stated): without primary audio but
with effective scroll speed 0, `maxDuration` is computed with the fallback
divisor 50, so `maxDuration * effectiveScrollSpeed = 0` while
`totalTextHeight + viewportHeight = 1140`: the claimed identity fails
absolutely at zero speed. -/
theorem maxDuration_speed_product_counterexample :
    zeroSpeedConfig.audioUrl = false ∧
    effectiveScrollSpeed lenWidth zeroSpeedConfig 0 = 0 ∧
    maxDuration lenWidth zeroSpeedConfig 0 * effectiveScrollSpeed lenWidth zeroSpeedConfig 0
      = 0 ∧
    totalTextHeightOf lenWidth zeroSpeedConfig + canvasHeight zeroSpeedConfig = 1140 ∧
    ((0 : ℚ) = 1140 → False) :=
  ⟨rfl, by decide, by decide, by decide, by decide⟩

/-- C5 (amended): without primary audio, whenever the effective scroll speed
is nonzero, `maxDuration * effectiveScrollSpeed` equals exactly
`totalTextHeight + viewportHeight` (for speed 0 the fallback divisor 50 makes
the product 0 instead, see `maxDuration_speed_product_counterexample`). -/
theorem maxDuration_mul_speed_eq_distance (widthFn : String → ℚ) (c : VideoConfig)
    (audioDuration : ℚ) (hA : c.audioUrl = false)
    (hs : effectiveScrollSpeed widthFn c audioDuration ≠ 0) :
    maxDuration widthFn c audioDuration * effectiveScrollSpeed widthFn c audioDuration =
      totalTextHeightOf widthFn c + canvasHeight c := by
  have h1 : maxDuration widthFn c audioDuration = visualDuration widthFn c audioDuration := by
    simp [maxDuration, hA]
  rw [h1, visualDuration, scrollDivisor, if_neg hs, totalDistanceOf]
  exact div_mul_cancel₀ _ hs

/-- The zero-speed configuration with an ordinary 50 px/s scroll speed. -/
def noAudioConfig : VideoConfig := { zeroSpeedConfig with scrollSpeed := 50 }

unseal Rat.add Rat.mul Rat.inv in
/-- C5 witness: at 50 px/s without audio the product recovers the total
distance. -/
theorem maxDuration_mul_speed_eq_distance_witness :
    maxDuration lenWidth noAudioConfig 0 * effectiveScrollSpeed lenWidth noAudioConfig 0 =
      totalTextHeightOf lenWidth noAudioConfig + canvasHeight noAudioConfig :=
  maxDuration_mul_speed_eq_distance lenWidth noAudioConfig 0 rfl (by decide)

/-- C10: the divisor of `visualDuration` is never zero (JS `|| 50` replaces a
zero speed), and with no usable primary audio and effective speed 0 the max
duration is the finite value `(totalTextHeight + viewportHeight) / 50`. -/
theorem scrollDivisor_spec (widthFn : String → ℚ) (c : VideoConfig) (audioDuration : ℚ) :
    scrollDivisor widthFn c audioDuration ≠ 0 ∧
    (effectiveScrollSpeed widthFn c audioDuration = 0 → c.audioUrl = false →
      maxDuration widthFn c audioDuration =
        (totalTextHeightOf widthFn c + canvasHeight c) / 50) := by
  constructor
  · unfold scrollDivisor
    split
    · norm_num
    · assumption
  · intro hs hA
    simp [maxDuration, hA, visualDuration, scrollDivisor, hs, totalDistanceOf]

/-- C10 witness: the zero-speed no-audio configuration gets the fallback
divisor and the finite duration `1140 / 50`. -/
theorem scrollDivisor_spec_witness :
    maxDuration lenWidth zeroSpeedConfig 0 =
      (totalTextHeightOf lenWidth zeroSpeedConfig + canvasHeight zeroSpeedConfig) / 50 :=
  (scrollDivisor_spec lenWidth zeroSpeedConfig 0).2 (by decide) rfl

/-- The state of an export session's tick loop: the monotonic time
accumulator `currentTimeRef` and whether `finishExport` has fired. -/
structure ExportState where
  acc : ℚ
  finished : Bool
  deriving DecidableEq

/-- The events the export session reacts to: a worker tick carrying the
wall-clock delta since the previous tick and the environment's readings
(`audioRef.current?.ended`, and the audio element's current time, which the
export loop deliberately never consults), or the user's explicit cancel
(the Cancel Export button invoking `finishExport`). -/
inductive ExportEvent where
  | tick (delta : ℚ) (audioEnded : Bool) (audioTime : ℚ)
  | cancel
  deriving DecidableEq

/-- One step of the export session (the `worker.onmessage` handler plus the
cancel path): a tick adds the wall-clock delta to the accumulator and
finishes when the primary audio reports ended or the accumulator reaches
`maxDuration + 0.5`; a cancel finishes immediately.  `finishExport` is
idempotent (it checks the recorder state), so finishing is sticky. -/
def exportStep (hasAudio : Bool) (maxD : ℚ) (s : ExportState) : ExportEvent → ExportState
  | .tick delta audioEnded _audioTime =>
    { acc := s.acc + delta,
      finished := s.finished || ((hasAudio && audioEnded)
        || decide (maxD + 1 / 2 ≤ s.acc + delta)) }
  | .cancel => { s with finished := true }

/-- C4: in an unfinished export session, each tick advances the accumulator
by exactly the wall-clock delta and the step never depends on the audio
element's time reading; and the session is finished after an event exactly
when that event is a cancel, or a tick with the primary audio reporting
ended, or a tick carrying the accumulator to at least `maxDuration + 0.5`. -/
theorem exportStep_spec (hasAudio : Bool) (maxD : ℚ) (s : ExportState)
    (h : s.finished = false) :
    (∀ (d : ℚ) (e : Bool) (t : ℚ),
      (exportStep hasAudio maxD s (.tick d e t)).acc = s.acc + d ∧
      exportStep hasAudio maxD s (.tick d e t) = exportStep hasAudio maxD s (.tick d e 0)) ∧
    (∀ ev : ExportEvent, (exportStep hasAudio maxD s ev).finished = true ↔
      ev = .cancel ∨ ∃ d e t, ev = .tick d e t ∧
        ((hasAudio = true ∧ e = true) ∨ maxD + 1 / 2 ≤ s.acc + d)) := by
  refine ⟨fun d e t => ⟨rfl, rfl⟩, fun ev => ?_⟩
  cases ev with
  | cancel => simp [exportStep]
  | tick d e t =>
      simp only [exportStep, h, Bool.false_or, Bool.or_eq_true, Bool.and_eq_true,
        decide_eq_true_eq]
      constructor
      · intro hfin
        exact Or.inr ⟨d, e, t, rfl, hfin⟩
      · rintro (hcan | ⟨d', e', t', heq, hcond⟩)
        · exact ExportEvent.noConfusion hcan
        · injection heq with hd he ht
          subst hd
          subst he
          exact hcond

/-- C4 witness: without audio and `maxDuration = 1`, a tick of 2 wall-clock
seconds from an unfinished zero state finishes the session. -/
theorem exportStep_spec_witness :
    (exportStep false 1 ⟨0, false⟩ (.tick 2 false 5)).finished = true :=
  ((exportStep_spec false 1 ⟨0, false⟩ rfl).2 (.tick 2 false 5)).mpr
    (Or.inr ⟨2, false, 5, rfl, Or.inr (by norm_num)⟩)

/-- One audio gain node: its directly-set value together with the target and
time constant of the last `setTargetAtTime` ramp scheduled on it. -/
structure GainParam where
  value : ℚ
  rampTarget : ℚ
  rampTimeConstant : ℚ
  deriving DecidableEq

/-- `gain.setTargetAtTime(target, startTime, timeConstant)`: schedules an
exponential approach of the gain toward `target`; the stored value is not
rewritten. -/
def setTargetAtTime (p : GainParam) (target timeConstant : ℚ) : GainParam :=
  { p with rampTarget := target, rampTimeConstant := timeConstant }

/-- The four gain nodes of the audio graph: `mainAudioGainNode` (feeding both
the monitor gain and the capture sink), `bgMusicGainNode` (feeding the
capture sink), and the two monitor-path gains `monitorGainNode` and
`bgMusicMonitorGainNode` (feeding the device output). -/
structure AudioGraph where
  mainGain : GainParam
  bgMusicGain : GainParam
  monitorGain : GainParam
  bgMusicMonitorGain : GainParam
  deriving DecidableEq

/-- The mute-monitor-during-export effect: when exporting with
`muteOnExport`, both monitor-path gains are ramped toward 0 with a 0.1s time
constant (otherwise back toward 0.95 resp. the background volume); the
capture-path gains are not touched. -/
def muteMonitorEffect (isExporting muteOnExport : Bool) (bgMusicVolume : ℚ)
    (g : AudioGraph) : AudioGraph :=
  let shouldMute := isExporting && muteOnExport
  let targetGain : ℚ := if shouldMute then 0 else 95 / 100
  let bgTarget : ℚ := if shouldMute then 0 else bgMusicVolume
  { g with monitorGain := setTargetAtTime g.monitorGain targetGain (1 / 10),
           bgMusicMonitorGain := setTargetAtTime g.bgMusicMonitorGain bgTarget (1 / 10) }

/-- C7: when an export runs with `muteOnExport` set, both monitor-path gains
are ramped toward 0 with a 0.1s time constant, while the capture-path gains
(`mainGain`, `bgMusicGain`) are left completely unchanged by the mute
operation. -/
theorem muteMonitorEffect_spec (e m : Bool) (bgMusicVolume : ℚ) (g : AudioGraph)
    (hE : e = true) (hM : m = true) :
    (muteMonitorEffect e m bgMusicVolume g).monitorGain.rampTarget = 0 ∧
    (muteMonitorEffect e m bgMusicVolume g).monitorGain.rampTimeConstant = 1 / 10 ∧
    (muteMonitorEffect e m bgMusicVolume g).bgMusicMonitorGain.rampTarget = 0 ∧
    (muteMonitorEffect e m bgMusicVolume g).bgMusicMonitorGain.rampTimeConstant = 1 / 10 ∧
    (muteMonitorEffect e m bgMusicVolume g).mainGain = g.mainGain ∧
    (muteMonitorEffect e m bgMusicVolume g).bgMusicGain = g.bgMusicGain := by
  subst hE
  subst hM
  simp [muteMonitorEffect, setTargetAtTime]

/-- A sample audio graph before the export-mute effect runs. -/
def sampleGraph : AudioGraph :=
  { mainGain := ⟨1, 1, 0⟩, bgMusicGain := ⟨1 / 2, 1 / 2, 0⟩,
    monitorGain := ⟨95 / 100, 95 / 100, 0⟩, bgMusicMonitorGain := ⟨1 / 2, 1 / 2, 0⟩ }

/-- C7 witness: muting the sample graph for export zeroes the monitor ramp
target and leaves the capture-path main gain untouched. -/
theorem muteMonitorEffect_spec_witness :
    (muteMonitorEffect true true (1 / 2) sampleGraph).monitorGain.rampTarget = 0 ∧
    (muteMonitorEffect true true (1 / 2) sampleGraph).mainGain = sampleGraph.mainGain :=
  ⟨(muteMonitorEffect_spec true true (1 / 2) sampleGraph rfl rfl).1,
   (muteMonitorEffect_spec true true (1 / 2) sampleGraph rfl rfl).2.2.2.2.1⟩

/-- The player's reactive state touched by the playback-start path. -/
structure PlayerFlags where
  isPlaying : Bool
  isExporting : Bool
  currentTime : ℚ
  isAudioReady : Bool
  audioError : Bool
  deriving DecidableEq

/-- The `.catch` handler of `audioRef.current.play()`: the rejection (e.g.
an autoplay-policy denial) is caught — the handler is a total state update,
no exception escapes — and it only reverts the playing flag to `false`. -/
def onPlaybackRejected (s : PlayerFlags) : PlayerFlags := { s with isPlaying := false }

/-- C8: a rejected playback start reverts the playing flag to false and
changes nothing else: the exporting flag, the clock and the audio readiness
state are untouched, so the scheduler is not aborted and the failure stays
non-fatal. -/
theorem onPlaybackRejected_spec (s : PlayerFlags) :
    (onPlaybackRejected s).isPlaying = false ∧
    (onPlaybackRejected s).isExporting = s.isExporting ∧
    (onPlaybackRejected s).currentTime = s.currentTime ∧
    (onPlaybackRejected s).isAudioReady = s.isAudioReady ∧
    (onPlaybackRejected s).audioError = s.audioError := by
  simp [onPlaybackRejected]

/-- The fixed inter-copy gap of the ticker (`const gap = 300`). -/
def tickerGap : ℚ := 300

/-- `loopWidth = textWidth + gap`. -/
def loopWidthOf (textWidth : ℚ) : ℚ := textWidth + tickerGap

/-- JS `%` on nonnegative operands: `a % b = a - b * trunc(a / b)`, which for
`a ≥ 0 < b` equals `a - b * floor(a / b)`. -/
def jsMod (a b : ℚ) : ℚ := a - b * (⌊a / b⌋ : ℚ)

/-- `shift = (time * tickerSpeed) % loopWidth`. -/
def tickerShift (t tickerSpeed textWidth : ℚ) : ℚ :=
  jsMod (t * tickerSpeed) (loopWidthOf textWidth)

/-- `startX = CANVAS_WIDTH - shift`. -/
def tickerStartX (W t tickerSpeed textWidth : ℚ) : ℚ :=
  W - tickerShift t tickerSpeed textWidth

/-- The horizontal pixel `x` lies under one of the three copies of the ticker
text the compositor draws, at `startX`, `startX + loopWidth` and
`startX - loopWidth` (text pixels `[start, start + textWidth)`). -/
def tickerCopiesCovered (W textWidth tickerSpeed t x : ℚ) : Prop :=
  ∃ k ∈ ([-1, 0, 1] : List ℤ),
    tickerStartX W t tickerSpeed textWidth + (k : ℚ) * loopWidthOf textWidth ≤ x ∧
    x < tickerStartX W t tickerSpeed textWidth + (k : ℚ) * loopWidthOf textWidth + textWidth

/-- Following the spec's words: the ideal seamless ticker is the infinite
periodic tiling of the text at every offset `startX + k * loopWidth`, and
"no horizontal gap in the ticker text coverage" means every visible pixel of
that infinite tiling is actually drawn by one of the three copies. -/
def tickerSeamlessCovered (W textWidth tickerSpeed t x : ℚ) : Prop :=
  ∃ k : ℤ,
    tickerStartX W t tickerSpeed textWidth + (k : ℚ) * loopWidthOf textWidth ≤ x ∧
    x < tickerStartX W t tickerSpeed textWidth + (k : ℚ) * loopWidthOf textWidth + textWidth

/-- C3 (counterexample to the claim as stated): at `t = 0`, viewport width
1920 and ticker text width 100 (`loopWidth = 400`), the pixel `x = 320` is
covered by the infinite periodic tiling (tile `k = -4`) but by none of the
three drawn copies, which sit at 1520, 1920 and 2320: the left three quarters
of the band show no ticker text although the seamless scroll would. -/
theorem ticker_coverage_counterexample :
    (0 : ℚ) ≤ 320 ∧ (320 : ℚ) ≤ 1920 ∧
    tickerSeamlessCovered 1920 100 120 0 320 ∧
    ¬ tickerCopiesCovered 1920 100 120 0 320 := by
  refine ⟨by norm_num, by norm_num, ⟨-4, ?_, ?_⟩, ?_⟩
  · norm_num [tickerStartX, tickerShift, jsMod, loopWidthOf, tickerGap]
  · norm_num [tickerStartX, tickerShift, jsMod, loopWidthOf, tickerGap]
  · rintro ⟨k, hk, h1, h2⟩
    fin_cases hk <;>
      norm_num [tickerStartX, tickerShift, jsMod, loopWidthOf, tickerGap] at h1 h2

/-- C3 (amended): for nonnegative time and ticker speed, the three drawn
copies cover every pixel of the visible band `[0, W]` that the ideal
seamless tiling covers, provided the viewport is at most two loop widths
minus a text width wide (`W + textWidth ≤ 2 * loopWidth`, e.g. any viewport
up to `textWidth + 600` px); beyond that the three copies are too few and
the guarantee fails (`ticker_coverage_counterexample`). -/
theorem ticker_copies_cover_seamless (W textWidth tickerSpeed t x : ℚ)
    (htw : 0 < textWidth) (ht : 0 ≤ t) (hsp : 0 ≤ tickerSpeed)
    (hW : W + textWidth ≤ 2 * loopWidthOf textWidth)
    (hx0 : 0 ≤ x) (hxW : x ≤ W)
    (hpat : tickerSeamlessCovered W textWidth tickerSpeed t x) :
    tickerCopiesCovered W textWidth tickerSpeed t x := by
  obtain ⟨k, h1, h2⟩ := hpat
  have hL : 0 < loopWidthOf textWidth := by
    unfold loopWidthOf tickerGap
    linarith
  set L := loopWidthOf textWidth with hLdef
  set a := t * tickerSpeed with ha
  have hflo : ((⌊a / L⌋ : ℚ)) ≤ a / L := Int.floor_le _
  have hfhi : a / L < (⌊a / L⌋ : ℚ) + 1 := Int.lt_floor_add_one _
  have hmul1 : (⌊a / L⌋ : ℚ) * L ≤ a := (le_div_iff₀ hL).mp hflo
  have hmul2 : a < ((⌊a / L⌋ : ℚ) + 1) * L := (div_lt_iff₀ hL).mp hfhi
  have hshift_eq : tickerShift t tickerSpeed textWidth = a - L * (⌊a / L⌋ : ℚ) := rfl
  have hsh0 : 0 ≤ tickerShift t tickerSpeed textWidth := by
    rw [hshift_eq]
    nlinarith [hmul1]
  have hshL : tickerShift t tickerSpeed textWidth < L := by
    rw [hshift_eq]
    nlinarith [hmul2]
  have hstart : tickerStartX W t tickerSpeed textWidth =
      W - tickerShift t tickerSpeed textWidth := rfl
  have hk0 : (k : ℚ) * L ≤ tickerShift t tickerSpeed textWidth := by
    have hWx := le_trans h1 hxW
    rw [hstart] at hWx
    linarith
  have hkle : k ≤ 0 := by
    by_contra hcon
    push_neg at hcon
    have h1k : (1 : ℚ) ≤ (k : ℚ) := by exact_mod_cast hcon
    have hmono : 1 * L ≤ (k : ℚ) * L := mul_le_mul_of_nonneg_right h1k hL.le
    rw [one_mul] at hmono
    linarith
  have hkge : -1 ≤ k := by
    by_contra hcon
    push_neg at hcon
    have h2z : k ≤ -2 := by omega
    have h2k : (k : ℚ) ≤ -2 := by exact_mod_cast h2z
    have hklL : (k : ℚ) * L ≤ -2 * L := mul_le_mul_of_nonneg_right h2k hL.le
    rw [hstart] at h2
    linarith
  interval_cases k
  · exact ⟨-1, by decide, h1, h2⟩
  · exact ⟨0, by decide, h1, h2⟩

/-- C3 witness: viewport 1000, text width 400 (`loopWidth = 700`, satisfying
`1000 + 400 ≤ 1400`), speed 100 at `t = 1`: the seamlessly-covered pixel 950
is indeed drawn by one of the three copies. -/
theorem ticker_copies_cover_seamless_witness :
    tickerCopiesCovered 1000 400 100 1 950 :=
  ticker_copies_cover_seamless 1000 400 100 1 950 (by norm_num) (by norm_num)
    (by norm_num) (by norm_num [loopWidthOf, tickerGap]) (by norm_num) (by norm_num)
    ⟨0, by norm_num [tickerStartX, tickerShift, jsMod, loopWidthOf, tickerGap],
      by norm_num [tickerStartX, tickerShift, jsMod, loopWidthOf, tickerGap]⟩

end LoveStory
